import Mathlib

/-!
# Verification of the delly `shortpe.h` SV-discovery core

A shallow embedding of `src/shortpe.h` (functions `scanPEandSR` and
`assembleSplitReads`) together with proofs about the embedded definitions.

Machine integers: BAM mapping qualities are `uint8_t` at the source
(`rec->core.qual`), so the `(uint8_t)` casts in the pair-quality computation are
identities and qualities are modelled as `Nat`.  Genomic positions and read-id
hashes are non-negative and modelled as `Nat`; insert sizes, reference ids,
svt codes and svids are modelled as `Int` (they are `int32_t` and can be
negative: `tid < 0`, `svid == -1`, negative insert sizes).
-/

namespace Torali

/-- Association-list lookup (model of `boost::unordered_map::find`). -/
def assocGet {β : Type} (l : List (Nat × β)) (k : Nat) : Option β :=
  match l with
  | [] => none
  | (k', v) :: t => if k' = k then some v else assocGet t k

/-- Association-list insert-or-assign (model of `map[k] = v`). -/
def assocSet {β : Type} (l : List (Nat × β)) (k : Nat) (v : β) : List (Nat × β) :=
  match l with
  | [] => [(k, v)]
  | (k', v') :: t => if k' = k then (k', v) :: t else (k', v') :: assocSet t k v

/-- Append a list of values to the entry at key `k`
(model of repeated `readBp[seed].push_back(...)`). -/
def assocAppend (l : List (Nat × List α)) (k : Nat) (vs : List α) : List (Nat × List α) :=
  match l with
  | [] => [(k, vs)]
  | (k', v') :: t => if k' = k then (k', v' ++ vs) :: t else (k', v') :: assocAppend t k vs

/-- CIGAR operation codes of an aligned read (htslib `bam_cigar_op`). -/
inductive CigarOp where
  | cmatch     -- BAM_CMATCH
  | cequal     -- BAM_CEQUAL
  | cdiff      -- BAM_CDIFF
  | cdel       -- BAM_CDEL
  | cins       -- BAM_CINS
  | csoft      -- BAM_CSOFT_CLIP
  | chard      -- BAM_CHARD_CLIP
  | crefskip   -- BAM_CREF_SKIP
  | cunknown   -- any other operation (warned and skipped by the source)
  deriving DecidableEq, Repr

/-- One aligned-read record, the fields of `bam1_t` read by `shortpe.h`.
`seed` is the read-name hash `hash_string(bam_get_qname(rec))`, taken as input
data; `seqCodes` are the 4-bit nucleotide codes `bam_seqi(seqptr, i)`. -/
structure ReadRec where
  flagQCfail : Bool
  flagDup : Bool
  flagUnmap : Bool
  flagSecondary : Bool
  flagSupplementary : Bool
  flagMUnmap : Bool
  flagPaired : Bool
  flagReverse : Bool
  qual : Nat
  tid : Int
  mtid : Int
  pos : Nat
  isize : Int
  seed : Nat
  cigar : List (CigarOp × Nat)
  seqCodes : List Nat
  deriving DecidableEq, Repr

/-- The configuration fields of `TConfig` read by the embedded code. -/
structure Config where
  minMapQual : Nat
  minTraQual : Nat
  minRefSep : Nat
  minClip : Nat
  svtcmd : Bool
  svtset : List Int
  deriving DecidableEq, Repr

/-- Per-sample library parameters (`sampleLib[file_c]`). -/
structure SampleLib where
  median : Int
  mad : Int
  maxNormalISize : Int
  maxISizeCutoff : Int
  rs : Int
  deriving DecidableEq, Repr

/-- Modelled from the spec: a `Junction` (junction.h is absent from src) carries
the reference id, the strand of the anchoring segment, the reference position,
the read-sequence offset and the `scleft` flag. -/
structure Junction where
  refid : Int
  forward : Bool
  rp : Nat
  sp : Nat
  scleft : Bool
  deriving DecidableEq, Repr

/-- Modelled from the spec: `_insertJunction(readBp, seed, rec, rp, sp, scleft)`
(junction.h is absent from src) appends one junction to the read's junction
list. -/
def mkJunction (r : ReadRec) (rp sp : Nat) (scleft : Bool) : Junction :=
  { refid := r.tid, forward := !r.flagReverse, rp := rp, sp := sp, scleft := scleft }

/-- State of the per-read CIGAR walk: reference pointer `rp`, sequence pointer
`sp`, and the junctions emitted so far for this read. -/
structure JState where
  rp : Nat
  sp : Nat
  js : List Junction
  deriving DecidableEq, Repr

/-- One CIGAR operation of the per-read walk of `scanPEandSR`
(src/shortpe.h lines 280-307). -/
def cigarStep (c : Config) (r : ReadRec) (st : JState) (op : CigarOp × Nat) : JState :=
  match op.1 with
  | CigarOp.cmatch => { st with rp := st.rp + op.2, sp := st.sp + op.2 }
  | CigarOp.cequal => { st with rp := st.rp + op.2, sp := st.sp + op.2 }
  | CigarOp.cdiff => { st with rp := st.rp + op.2, sp := st.sp + op.2 }
  | CigarOp.cdel =>
      let js1 := if op.2 > c.minRefSep then st.js ++ [mkJunction r st.rp st.sp false] else st.js
      let rp1 := st.rp + op.2
      let js2 := if op.2 > c.minRefSep then js1 ++ [mkJunction r rp1 st.sp true] else js1
      { rp := rp1, sp := st.sp, js := js2 }
  | CigarOp.cins => { st with sp := st.sp + op.2 }
  | CigarOp.csoft =>
      let finalsp := if st.sp = 0 then st.sp + op.2 else st.sp
      let scleft := st.sp = 0
      let js1 := if op.2 > c.minClip then st.js ++ [mkJunction r st.rp finalsp scleft] else st.js
      { st with sp := st.sp + op.2, js := js1 }
  | CigarOp.chard =>
      let finalsp := if st.sp = 0 then st.sp + op.2 else st.sp
      let scleft := st.sp = 0
      let js1 := if op.2 > c.minClip then st.js ++ [mkJunction r st.rp finalsp scleft] else st.js
      { st with sp := st.sp + op.2, js := js1 }
  | CigarOp.crefskip => { st with rp := st.rp + op.2 }
  | CigarOp.cunknown => st

/-- The full CIGAR walk of one read: reference pointer starts at the read's
alignment position, sequence pointer at zero (src/shortpe.h lines 275-307). -/
def cigarWalk (c : Config) (r : ReadRec) : JState :=
  r.cigar.foldl (cigarStep c r) { rp := r.pos, sp := 0, js := [] }

/-- Modelled from the spec: the translocation base `DELLY_SVT_TRANS` (tags.h is
absent from src).  The svt encoding assigns 0..4 to the intra-chromosomal SV
types and every value ≥ T to translocations, so T = 5. -/
def DELLY_SVT_TRANS : Int := 5

/-- Modelled from the spec: `_translocation(svt)` — an svt denotes a
translocation iff it is at least the translocation base. -/
def translocSvt (svt : Int) : Bool := DELLY_SVT_TRANS ≤ svt

/-- Modelled from the spec: `_translocation(rec)` — a read record is a
translocation candidate iff its pair is inter-chromosomal. -/
def translocRead (r : ReadRec) : Bool := r.tid != r.mtid

/-- Modelled from the spec: `SRBamRecord` — a split-read breakpoint pair with
both endpoints, the read-id hash, the svt, and the `svid` assigned during
clustering (−1 until assigned). -/
structure SRBamRecord where
  chr : Nat
  pos : Nat
  chr2 : Nat
  pos2 : Nat
  id : Nat
  svt : Int
  svid : Int
  deriving DecidableEq, Repr

/-- Modelled from the spec: `StructuralVariantRecord` — id, svt, both
breakpoints, PE/SR support, `precise` flag, consensus, SR alignment quality. -/
structure SVRecord where
  id : Int
  svt : Int
  chr : Nat
  svStart : Nat
  chr2 : Nat
  svEnd : Nat
  peSupport : Nat
  srSupport : Nat
  precise : Bool
  consensus : List Char
  srAlignQuality : Nat
  deriving DecidableEq, Repr

/-- A default `StructuralVariantRecord` (used only for out-of-range `getD`). -/
def dummySV : SVRecord :=
  { id := -1, svt := -1, chr := 0, svStart := 0, chr2 := 0, svEnd := 0,
    peSupport := 0, srSupport := 0, precise := false, consensus := [],
    srAlignQuality := 0 }

/-- Modelled from the spec: `BamAlignRecord` — paired-end evidence built by
`BamAlignRecord(rec, pairQuality, alignmentLength(rec), alenmate, median, mad,
maxNormalISize)`: the pair's minimum mapping quality, both mates' alignment
lengths, the insert size and the sample's library parameters. -/
structure BamAlignRecord where
  pairQuality : Nat
  alen : Int
  alenmate : Int
  median : Int
  mad : Int
  maxNormalISize : Int
  isize : Int
  deriving DecidableEq, Repr

/-- One paired-end emission event of the scanner: the svt slot the record is
pushed into (`bamRecord[svt].push_back(...)`), the constructed
`BamAlignRecord`, and — for specification purposes — the two mapping
qualities that entered `std::min` (the stored first-mate quality and the
emitting read's quality). -/
structure Emission where
  svt : Int
  bamRec : BamAlignRecord
  mateQual : Nat
  readQual : Nat
  deriving DecidableEq, Repr

/-- Modelled from the spec: the external helpers of util.h / msa.h / split.h,
absent from src, kept abstract: the mate-pairing hashes (`hash_pair`,
`hash_pair_mate`), the first-mate predicate (`_firstPairObs`), the pair
classifier (`_isizeMappingPos`, returning an svt or −1), `alignmentLength`,
the orientation adjustment of a gathered sequence (`_adjustOrientation`),
the MSA primitive (`msa`) and the consensus-to-reference aligner
(`alignConsensus`, `none` on failure). -/
structure Ext where
  hashPair : ReadRec → Nat
  hashPairMate : ReadRec → Nat
  firstPairObs : ReadRec → List Nat → Bool
  isizeMappingPos : ReadRec → Int → Int
  alignmentLength : ReadRec → Int
  adjustOrientation : List Char → Bool → Int → List Char
  msaFn : List (List Char) → List Char
  alignFn : SVRecord → Option SVRecord

/-- Scanner state for one sample: the per-read junction map `readBp`, the
intra-chromosomal mate map `mateMap` and inter-chromosomal mate map `matetra`
(key → (stored quality, alignment length)), the position-local dedup state
(`lastAlignedPos`, `lastAlignedPosReads`), and the emitted pair evidence. -/
structure ScanSt where
  readBp : List (Nat × List Junction)
  mateMap : List (Nat × (Nat × Int))
  matetra : List (Nat × (Nat × Int))
  lastAlignedPos : Nat
  lastReads : List Nat
  emitted : List Emission
  deriving Repr

/-- The initial scanner state (empty maps, `lastAlignedPos = 0`). -/
def initScanSt : ScanSt :=
  { readBp := [], mateMap := [], matetra := [], lastAlignedPos := 0,
    lastReads := [], emitted := [] }

/-- The position-local dedup cleanup (src/shortpe.h lines 329-332): when the
read position advances, the set of read hashes seen at the last position is
cleared. -/
def dedupPhase (st : ScanSt) (r : ReadRec) : ScanSt :=
  if r.pos > st.lastAlignedPos then
    { st with lastReads := [], lastAlignedPos := r.pos }
  else st

/-- The first-mate branch (src/shortpe.h lines 335-340): remember the read
hash at the current position and store (mapping quality, alignment length)
under `hash_pair(rec)` — in the inter-chromosomal map for translocation svts,
in the intra-chromosomal map otherwise. -/
def storeFirst (ext : Ext) (svt : Int) (st : ScanSt) (r : ReadRec) : ScanSt :=
  let st := { st with lastReads := r.seed :: st.lastReads }
  let hv := ext.hashPair r
  if translocSvt svt then
    { st with matetra := assocSet st.matetra hv (r.qual, ext.alignmentLength r) }
  else
    { st with mateMap := assocSet st.mateMap hv (r.qual, ext.alignmentLength r) }

/-- The second-mate branch (src/shortpe.h lines 341-367): look the stored
mate up under `hash_pair_mate(rec)`; if it is absent or its stored quality
was zeroed the read is dropped, otherwise a `BamAlignRecord` is emitted with
the minimum of the two mapping qualities and the stored quality is zeroed. -/
def emitSecond (ext : Ext) (lib : SampleLib) (svt : Int) (st : ScanSt) (r : ReadRec) : ScanSt :=
  let hv := ext.hashPairMate r
  let mate := if translocSvt svt then assocGet st.matetra hv else assocGet st.mateMap hv
  match mate with
  | none => st
  | some p =>
    if p.1 = 0 then st  -- Mate discarded
    else
      let pairQuality := min p.1 r.qual
      let bamRec : BamAlignRecord :=
        { pairQuality := pairQuality, alen := ext.alignmentLength r, alenmate := p.2,
          median := lib.median, mad := lib.mad, maxNormalISize := lib.maxNormalISize,
          isize := r.isize }
      let e : Emission := { svt := svt, bamRec := bamRec, mateQual := p.1, readQual := r.qual }
      if translocSvt svt then
        { st with matetra := assocSet st.matetra hv (0, p.2), emitted := st.emitted ++ [e] }
      else
        { st with mateMap := assocSet st.mateMap hv (0, p.2), emitted := st.emitted ++ [e] }

/-- The mate-reconciliation phase of the paired-end branch
(src/shortpe.h lines 328-367): position-local dedup cleanup, then the
first-mate or second-mate branch according to `_firstPairObs`. -/
def matePhase (ext : Ext) (lib : SampleLib) (svt : Int) (st : ScanSt) (r : ReadRec) : ScanSt :=
  let st := dedupPhase st r
  if ext.firstPairObs r st.lastReads then storeFirst ext svt st r
  else emitSecond ext lib svt st r

/-- The paired-end clustering branch for one read (src/shortpe.h lines
310-367): single-end-library check, secondary/supplementary and mate filters,
pair classification, the svt allow-list, the deletion insert-size check, then
mate reconciliation.  `validNonempty i` models `!validRegions[i].empty()`. -/
def peBranch (cfg : Config) (ext : Ext) (lib : SampleLib) (validNonempty : Nat → Bool)
    (st : ScanSt) (r : ReadRec) : ScanSt :=
  if lib.median = 0 then st  -- Single-end library
  else if r.flagSecondary ∨ r.flagSupplementary then st
  else if r.mtid < 0 ∨ r.flagMUnmap then st
  else if ¬ validNonempty r.mtid.toNat then st
  else if translocRead r ∧ r.qual < cfg.minTraQual then st
  else
    let overallMaxISize := max lib.maxISizeCutoff lib.rs
    let svt := ext.isizeMappingPos r overallMaxISize
    if svt = -1 then st
    else if cfg.svtcmd ∧ svt ∉ cfg.svtset then st
    else if svt = 2 ∧ lib.maxISizeCutoff > |r.isize| then st
    else matePhase ext lib svt st r

/-- Processing of one read by the scanner with the paired-end branch included
(src/shortpe.h lines 269-368): input filters, the CIGAR walk appending this
read's junctions to `readBp[seed]`, then — for paired reads — the paired-end
branch. -/
def processRead (cfg : Config) (ext : Ext) (lib : SampleLib) (validNonempty : Nat → Bool)
    (st : ScanSt) (r : ReadRec) : ScanSt :=
  if r.flagQCfail ∨ r.flagDup ∨ r.flagUnmap then st
  else if r.qual < cfg.minMapQual ∨ r.tid < 0 then st
  else
    let st1 := { st with readBp := assocAppend st.readBp r.seed (cigarWalk cfg r).js }
    if r.flagPaired then peBranch cfg ext lib validNonempty st1 r else st1

/-- Processing of one read with only the input filters and the junction
extraction (the scanner with the paired-end branch removed). -/
def junctionPass (cfg : Config) (st : ScanSt) (r : ReadRec) : ScanSt :=
  if r.flagQCfail ∨ r.flagDup ∨ r.flagUnmap then st
  else if r.qual < cfg.minMapQual ∨ r.tid < 0 then st
  else { st with readBp := assocAppend st.readBp r.seed (cigarWalk cfg r).js }

/-- The scanner's read loop over one stream of reads. -/
def scanSample (cfg : Config) (ext : Ext) (lib : SampleLib) (validNonempty : Nat → Bool)
    (st : ScanSt) (reads : List ReadRec) : ScanSt :=
  reads.foldl (processRead cfg ext lib validNonempty) st

/-- The SR back-index `srStore`: per reference id, a map from
(position, read-id hash) to svid. -/
def SRStore : Type := Nat → Nat × Nat → Option Int

/-- The empty SR back-index. -/
def emptyStore : SRStore := fun _ _ => none

/-- Map assignment `srStore[chr][(pos, id)] = svid`. -/
def srStoreSet (st : SRStore) (chr : Nat) (k : Nat × Nat) (v : Int) : SRStore :=
  fun chr' k' => if chr' = chr ∧ k' = k then some v else st chr' k'

/-- The first endpoint key of an SR record: (chr, pos, id). -/
def endpointKey1 (r : SRBamRecord) : Nat × Nat × Nat := (r.chr, r.pos, r.id)

/-- The second endpoint key of an SR record: (chr2, pos2, id). -/
def endpointKey2 (r : SRBamRecord) : Nat × Nat × Nat := (r.chr2, r.pos2, r.id)

/-- One step of the split-read tracking loop (src/shortpe.h lines 430-434):
a record with an assigned svid inserts both endpoints, a record with
`svid = -1` inserts nothing. -/
def trackStep (st : SRStore) (r : SRBamRecord) : SRStore :=
  if r.svid ≠ -1 then
    srStoreSet (srStoreSet st r.chr (r.pos, r.id) r.svid) r.chr2 (r.pos2, r.id) r.svid
  else st

/-- The split-read tracking loop of `scanPEandSR` (src/shortpe.h lines
428-436) over the flattened per-svt record vectors. -/
def trackSplitReads (recs : List SRBamRecord) (st : SRStore) : SRStore :=
  recs.foldl trackStep st

/-- Modelled from the spec: one component step of `cluster` (cluster.h is
absent from src), §4.F: a component meeting the support test is promoted —
an `StructuralVariantRecord` is appended whose id is its position in the SV
vector, whose interval is the span of the members, whose svt is the
component's svt, whose SR support is the component's size and which is
`precise`; the new SV's id is assigned back into each member record's svid.
A rejected component leaves its members untouched. -/
def clusterComp (accept : List SRBamRecord → Bool) (svt : Int)
    (acc : List SRBamRecord × List SVRecord) (comp : List SRBamRecord) :
    List SRBamRecord × List SVRecord :=
  match comp with
  | [] => acc
  | c0 :: rest =>
    if accept comp then
      let svid : Int := acc.2.length
      let sv : SVRecord :=
        { id := svid, svt := svt,
          chr := c0.chr, svStart := (rest.map SRBamRecord.pos).foldl min c0.pos,
          chr2 := c0.chr2, svEnd := (rest.map SRBamRecord.pos2).foldl max c0.pos2,
          peSupport := 0, srSupport := comp.length, precise := true,
          consensus := [], srAlignQuality := 0 }
      (acc.1 ++ comp.map (fun r => { r with svid := svid }), acc.2 ++ [sv])
    else (acc.1 ++ comp, acc.2)

/-- Modelled from the spec: `cluster(c, srBR[svt], srSVs, maxReadSep, svt)`
(cluster.h is absent from src), §4.F: the records of one svt, partitioned
into proximity components, are promoted component by component, appending the
accepted SVs to the shared SV vector and assigning svids back into member
records.  The proximity partition and the support test are taken as inputs. -/
def cluster (accept : List SRBamRecord → Bool) (svt : Int)
    (comps : List (List SRBamRecord)) (svs : List SVRecord) :
    List SRBamRecord × List SVRecord :=
  comps.foldl (clusterComp accept svt) ([], svs)

/-- The per-SV read cap of `assembleSplitReads` (src/shortpe.h line 93). -/
def maxReadPerSV : Nat := 20

/-- The 4-bit nucleotide decoding of a read's packed sequence
(src/shortpe.h line 143): `"=ACMGRSVTWYHKDBN"[bam_seqi(seqptr, i)]`. -/
def decodeSeq (codes : List Nat) : List Char :=
  codes.map (fun code => "=ACMGRSVTWYHKDBN".toList.getD code 'N')

/-- Assembler state for one reference: the SV vector, the per-SV gathered
sequences `seqStore` and the per-SV completion flags `svDone`. -/
structure AsmSt where
  svs : List SVRecord
  seqStore : List (List (List Char))
  svDone : List Bool
  deriving Repr

/-- The initial assembler state for one reference (src/shortpe.h lines
118-119): per-SV stores of size `svs.size()`, all empty, no SV done. -/
def initAsmSt (svs : List SVRecord) : AsmSt :=
  { svs := svs, seqStore := List.replicate svs.length [],
    svDone := List.replicate svs.length false }

/-- Gathering of one read by `assembleSplitReads` (src/shortpe.h lines
127-157): input filters, the position bitset `hits`, the `srStore` lookup at
(pos, read-name hash), the `svid == svs[svid].id` guard, sequence decoding and
orientation adjustment, and the capped, not-yet-done append into
`seqStore[svid]`.  `refIndex` is the reference currently processed. -/
def gatherRead (cfg : Config) (ext : Ext) (srStoreR : Nat × Nat → Option Int)
    (hits : Nat → Bool) (refIndex : Int) (st : AsmSt) (r : ReadRec) : AsmSt :=
  if r.flagQCfail ∨ r.flagDup ∨ r.flagUnmap ∨ r.flagSecondary ∨ r.flagSupplementary then st
  else if r.qual < cfg.minMapQual ∨ r.tid < 0 then st
  else if ¬ hits r.pos then st
  else
    match srStoreR (r.pos, r.seed) with
    | none => st
    | some svid =>
      if svid = (st.svs.getD svid.toNat dummySV).id then  -- Should be always true
        let sequence := decodeSeq r.seqCodes
        let bpPoint :=
          if translocRead r then r.mtid = refIndex
          else r.pos > (st.svs.getD svid.toNat dummySV).svStart
        let sequence := ext.adjustOrientation sequence bpPoint (st.svs.getD svid.toNat dummySV).svt
        if ¬ (st.svDone.getD svid.toNat false) ∧
            (st.seqStore.getD svid.toNat []).length < maxReadPerSV then
          { st with seqStore :=
              st.seqStore.set svid.toNat ((st.seqStore.getD svid.toNat []) ++ [sequence]) }
        else st
      else st

/-- The completion check for one SV (src/shortpe.h lines 161-177): if the SV
is not yet done and its gathered count reached `maxReadPerSV` or its SR
support, then — for a non-translocation SV with more than one sequence — the
MSA consensus is computed and re-aligned to the reference, clearing consensus
and SR support on alignment failure; in every completion case the sequence
store is cleared and the SV marked done.  The returned flag records whether
the MSA/alignment branch was invoked. -/
def completeSV (ext : Ext) (st : AsmSt) (svid : Nat) : AsmSt × Bool :=
  let len := (st.seqStore.getD svid []).length
  let sv := st.svs.getD svid dummySV
  if ¬ (st.svDone.getD svid false) ∧ (len = maxReadPerSV ∨ len = sv.srSupport) then
    let cleaned : AsmSt → AsmSt := fun s =>
      { s with seqStore := s.seqStore.set svid [], svDone := s.svDone.set svid true }
    if ¬ translocSvt sv.svt ∧ len > 1 then
      let sv1 := { sv with consensus := ext.msaFn (st.seqStore.getD svid []) }
      match ext.alignFn sv1 with
      | some refined => (cleaned { st with svs := st.svs.set svid refined }, true)
      | none =>
        -- MSA failed
        (cleaned { st with svs := st.svs.set svid { sv1 with consensus := [], srSupport := 0 } },
         true)
    else (cleaned st, false)
  else (st, false)

/-- The completion sweep over all SVs (src/shortpe.h lines 160-178). -/
def completionSweep (ext : Ext) (st : AsmSt) : AsmSt :=
  (List.range st.seqStore.length).foldl (fun s i => (completeSV ext s i).1) st

/-- The scanner invariant: every non-zero quality stored in either mate map is
at least `minMapQual`, and every emitted pair evidence has
`pairQuality = min(mateQual, readQual)` with both qualities at least
`minMapQual` and — for deletion evidence (svt = 2) — an absolute insert size
of at least the sample's `maxISizeCutoff`. -/
def scanInv (cfg : Config) (lib : SampleLib) (st : ScanSt) : Prop :=
  (∀ p ∈ st.mateMap, p.2.1 ≠ 0 → cfg.minMapQual ≤ p.2.1) ∧
  (∀ p ∈ st.matetra, p.2.1 ≠ 0 → cfg.minMapQual ≤ p.2.1) ∧
  (∀ e ∈ st.emitted,
    (e.bamRec.pairQuality = min e.mateQual e.readQual ∧
     cfg.minMapQual ≤ e.mateQual ∧ cfg.minMapQual ≤ e.readQual) ∧
    (e.svt = 2 → lib.maxISizeCutoff ≤ |e.bamRec.isize|))

/-! ## Concrete fixtures used by counterexamples and witnesses -/

/-- A concrete configuration for boundary checks:
`minRefSep = 5`, `minClip = 5`, `minMapQual = 10`. -/
def cfgFix : Config :=
  { minMapQual := 10, minTraQual := 10, minRefSep := 5, minClip := 5,
    svtcmd := false, svtset := [] }

/-- A read template with all filter flags clear. -/
def readFix : ReadRec :=
  { flagQCfail := false, flagDup := false, flagUnmap := false,
    flagSecondary := false, flagSupplementary := false, flagMUnmap := false,
    flagPaired := false, flagReverse := false,
    qual := 42, tid := 0, mtid := 0, pos := 100, isize := 0, seed := 11,
    cigar := [], seqCodes := [] }

/-- A read whose CIGAR contains a deletion of length exactly `minRefSep` (=5):
10M 5D 10M. -/
def readDelAtMin : ReadRec :=
  { readFix with cigar :=
      [(CigarOp.cmatch, 10), (CigarOp.cdel, 5), (CigarOp.cmatch, 10)] }

/-- A read whose CIGAR contains a soft-clip of length exactly `minClip` (=5):
5S 20M. -/
def readClipAtMin : ReadRec :=
  { readFix with cigar := [(CigarOp.csoft, 5), (CigarOp.cmatch, 20)] }

/-- A concrete instance of the abstract external helpers: both mates hash to
key 5, the read at position 100 counts as the first mate, every pair is
classified as a deletion (svt 2). -/
def extPair : Ext :=
  { hashPair := fun _ => 5, hashPairMate := fun _ => 5,
    firstPairObs := fun r _ => r.pos == 100,
    isizeMappingPos := fun _ _ => 2,
    alignmentLength := fun _ => 100,
    adjustOrientation := fun s _ _ => s,
    msaFn := fun _ => [], alignFn := fun _ => none }

/-- Concrete library parameters: median 300, MAD 20, maxNormalISize 400,
maxISizeCutoff 500, read size 100. -/
def libFix : SampleLib :=
  { median := 300, mad := 20, maxNormalISize := 400, maxISizeCutoff := 500, rs := 100 }

/-- The same library as a single-end library (median 0). -/
def libSE : SampleLib := { libFix with median := 0 }

/-- First mate of a discordant deletion pair: mapping quality exactly
`minMapQual` (= 10), insert size 600. -/
def readMate1 : ReadRec :=
  { readFix with flagPaired := true, qual := 10, pos := 100, isize := 600, seed := 21 }

/-- Second mate of the pair: mapping quality 60, position 700, insert
size −600. -/
def readMate2 : ReadRec :=
  { readFix with flagPaired := true, qual := 60, pos := 700, isize := -600, seed := 21 }

/-- The pair at insert size exactly `maxISizeCutoff` (= 500), first mate. -/
def readEq1 : ReadRec := { readMate1 with isize := 500, qual := 30 }

/-- The pair at insert size exactly `maxISizeCutoff` (= 500), second mate. -/
def readEq2 : ReadRec := { readMate2 with isize := -500 }

/-- A deletion-classified read whose absolute insert size (100) is below
`maxISizeCutoff` (= 500). -/
def readSmallIsize : ReadRec := { readMate1 with isize := 100 }

/-- The pair evidence emitted when scanning `[readMate1, readMate2]` with
`extPair`/`libFix`: pair quality min 10 60 = 10. -/
def emissionFix : Emission :=
  { svt := 2,
    bamRec := { pairQuality := 10, alen := 100, alenmate := 100, median := 300,
                mad := 20, maxNormalISize := 400, isize := -600 },
    mateQual := 10, readQual := 60 }

/-- Two SR records share an endpoint key iff one of the four endpoint-key
pairs coincides. -/
def sharesEndpoint (a b : SRBamRecord) : Prop :=
  endpointKey1 a = endpointKey1 b ∨ endpointKey1 a = endpointKey2 b ∨
  endpointKey2 a = endpointKey1 b ∨ endpointKey2 a = endpointKey2 b

/-- Decidability of `sharesEndpoint`, for use in concrete witnesses. -/
instance (a b : SRBamRecord) : Decidable (sharesEndpoint a b) := by
  unfold sharesEndpoint
  infer_instance

/-- Every SV record's id equals its position in the vector. -/
def svsIdOk (svs : List SVRecord) : Prop :=
  ∀ i, i < svs.length → (svs.getD i dummySV).id = i

/-- An SR record's svid is either unassigned or a valid index into the SV
vector whose record carries that id. -/
def recOk (svs : List SVRecord) (r : SRBamRecord) : Prop :=
  r.svid = -1 ∨
  (0 ≤ r.svid ∧ r.svid.toNat < svs.length ∧ (svs.getD r.svid.toNat dummySV).id = r.svid)

/-- A concrete non-translocation SV record with id 0, svt 2 (deletion) and
SR support 2. -/
def svC6 : SVRecord :=
  { id := 0, svt := 2, chr := 0, svStart := 150, chr2 := 0, svEnd := 350,
    peSupport := 0, srSupport := 2, precise := true, consensus := [],
    srAlignQuality := 0 }

/-- A concrete translocation SV record (svt 5 = translocation base). -/
def svT : SVRecord := { svC6 with svt := 5 }

/-- Assembler state holding `svC6` with two gathered sequences. -/
def stC6 : AsmSt :=
  { svs := [svC6], seqStore := [[['A', 'C'], ['A', 'G']]], svDone := [false] }

/-- Assembler state holding the translocation `svT` with two gathered
sequences. -/
def stT : AsmSt :=
  { svs := [svT], seqStore := [[['A', 'C'], ['A', 'G']]], svDone := [false] }

/-- A concrete SR back-index slice for one reference: (pos 100, read hash 11)
maps to svid 0. -/
def srStoreFixR : Nat × Nat → Option Int :=
  fun k => if k = (100, 11) then some 0 else none

/-- A concrete SR record with an assigned svid (3). -/
def recA : SRBamRecord :=
  { chr := 0, pos := 150, chr2 := 0, pos2 := 350, id := 11, svt := 2, svid := 3 }

/-- A concrete SR record left unassigned (svid −1). -/
def recB : SRBamRecord :=
  { chr := 1, pos := 200, chr2 := 1, pos2 := 600, id := 12, svt := 3, svid := -1 }

/-- A concrete unassigned SR record for clustering. -/
def recC : SRBamRecord :=
  { chr := 2, pos := 400, chr2 := 2, pos2 := 900, id := 13, svt := 2, svid := -1 }

-- ### Theorems

/-- A successful association-list lookup returns an entry of the list. -/
theorem assocGet_mem {β : Type} {l : List (Nat × β)} {k : Nat} {v : β}
    (h : assocGet l k = some v) : (k, v) ∈ l := by
  induction l with
  | nil => simp [assocGet] at h
  | cons hd t ih =>
    obtain ⟨k', v'⟩ := hd
    simp only [assocGet] at h
    split at h
    · rename_i heq
      cases h
      subst heq
      exact List.mem_cons_self _ _
    · exact List.mem_cons_of_mem _ (ih h)

/-- Every entry of `assocSet l k v` is either the new binding or an entry of
the original list. -/
theorem assocSet_mem {β : Type} {l : List (Nat × β)} {k : Nat} {v : β} {e : Nat × β}
    (h : e ∈ assocSet l k v) : e = (k, v) ∨ e ∈ l := by
  induction l with
  | nil =>
    simp [assocSet] at h
    exact Or.inl h
  | cons hd t ih =>
    obtain ⟨k', v'⟩ := hd
    simp only [assocSet] at h
    split at h
    · rename_i heq
      rcases List.mem_cons.mp h with h1 | h1
      · subst heq
        exact Or.inl h1
      · exact Or.inr (List.mem_cons_of_mem _ h1)
    · rcases List.mem_cons.mp h with h1 | h1
      · exact Or.inr (h1 ▸ List.mem_cons_self _ _)
      · rcases ih h1 with h2 | h2
        · exact Or.inl h2
        · exact Or.inr (List.mem_cons_of_mem _ h2)

/-- The dedup cleanup preserves the scanner invariant. -/
theorem scanInv_dedupPhase {cfg : Config} {lib : SampleLib} {st : ScanSt} {r : ReadRec}
    (hinv : scanInv cfg lib st) : scanInv cfg lib (dedupPhase st r) := by
  unfold dedupPhase
  split
  · exact hinv
  · exact hinv

/-- The first-mate branch preserves the scanner invariant, provided the read
passed the mapping-quality filter. -/
theorem scanInv_storeFirst {cfg : Config} {lib : SampleLib} {ext : Ext} {svt : Int}
    {st : ScanSt} {r : ReadRec}
    (hq : cfg.minMapQual ≤ r.qual)
    (hinv : scanInv cfg lib st) :
    scanInv cfg lib (storeFirst ext svt st r) := by
  obtain ⟨h1, h2, h3⟩ := hinv
  unfold storeFirst
  split
  · refine ⟨h1, ?_, h3⟩
    intro p hp hne
    rcases assocSet_mem hp with he | he
    · subst he; exact hq
    · exact h2 p he hne
  · refine ⟨?_, h2, h3⟩
    intro p hp hne
    rcases assocSet_mem hp with he | he
    · subst he; exact hq
    · exact h1 p he hne

/-- The second-mate branch preserves the scanner invariant, provided the read
passed the mapping-quality filter and — when classified as a deletion — the
insert-size filter. -/
theorem scanInv_emitSecond {cfg : Config} {lib : SampleLib} {ext : Ext} {svt : Int}
    {st : ScanSt} {r : ReadRec}
    (hq : cfg.minMapQual ≤ r.qual)
    (hdel : svt = 2 → lib.maxISizeCutoff ≤ |r.isize|)
    (hinv : scanInv cfg lib st) :
    scanInv cfg lib (emitSecond ext lib svt st r) := by
  obtain ⟨h1, h2, h3⟩ := hinv
  unfold emitSecond
  by_cases htr : translocSvt svt <;>
    simp only [htr, if_true, if_false, Bool.false_eq_true, ite_true, ite_false]
  · cases hp : assocGet st.matetra (ext.hashPairMate r) with
    | none => exact ⟨h1, h2, h3⟩
    | some p =>
      by_cases hp0 : p.1 = 0
      · simp only [hp0, if_true, ite_true]
        exact ⟨h1, h2, h3⟩
      · simp only [hp0, if_false, ite_false]
        have hpq : cfg.minMapQual ≤ p.1 := h2 _ (assocGet_mem hp) hp0
        refine ⟨h1, ?_, ?_⟩
        · intro q hqm hne
          rcases assocSet_mem hqm with he | he
          · subst he; simp at hne
          · exact h2 q he hne
        · intro e he
          rcases List.mem_append.mp he with he1 | he1
          · exact h3 e he1
          · rcases List.mem_singleton.mp he1 with rfl
            exact ⟨⟨rfl, hpq, hq⟩, fun hs => hdel hs⟩
  · cases hp : assocGet st.mateMap (ext.hashPairMate r) with
    | none => exact ⟨h1, h2, h3⟩
    | some p =>
      by_cases hp0 : p.1 = 0
      · simp only [hp0, if_true, ite_true]
        exact ⟨h1, h2, h3⟩
      · simp only [hp0, if_false, ite_false]
        have hpq : cfg.minMapQual ≤ p.1 := h1 _ (assocGet_mem hp) hp0
        refine ⟨?_, h2, ?_⟩
        · intro q hqm hne
          rcases assocSet_mem hqm with he | he
          · subst he; simp at hne
          · exact h1 q he hne
        · intro e he
          rcases List.mem_append.mp he with he1 | he1
          · exact h3 e he1
          · rcases List.mem_singleton.mp he1 with rfl
            exact ⟨⟨rfl, hpq, hq⟩, fun hs => hdel hs⟩

/-- The mate-reconciliation phase preserves the scanner invariant. -/
theorem scanInv_matePhase {cfg : Config} {ext : Ext} {lib : SampleLib} {svt : Int}
    {st : ScanSt} {r : ReadRec}
    (hq : cfg.minMapQual ≤ r.qual)
    (hdel : svt = 2 → lib.maxISizeCutoff ≤ |r.isize|)
    (hinv : scanInv cfg lib st) :
    scanInv cfg lib (matePhase ext lib svt st r) := by
  unfold matePhase
  dsimp only
  split
  · exact scanInv_storeFirst hq (scanInv_dedupPhase hinv)
  · exact scanInv_emitSecond hq hdel (scanInv_dedupPhase hinv)

/-- The paired-end branch preserves the scanner invariant, provided the read
passed the mapping-quality filter. -/
theorem scanInv_peBranch {cfg : Config} {ext : Ext} {lib : SampleLib}
    {valid : Nat → Bool} {st : ScanSt} {r : ReadRec}
    (hq : cfg.minMapQual ≤ r.qual)
    (hinv : scanInv cfg lib st) :
    scanInv cfg lib (peBranch cfg ext lib valid st r) := by
  unfold peBranch
  dsimp only
  split
  · exact hinv
  split
  · exact hinv
  split
  · exact hinv
  split
  · exact hinv
  split
  · exact hinv
  split
  · exact hinv
  split
  · exact hinv
  split
  · exact hinv
  · rename_i hnd
    refine scanInv_matePhase hq ?_ hinv
    intro hs
    by_contra hlt
    push_neg at hlt
    exact hnd ⟨hs, hlt⟩

/-- One scanner step preserves the scanner invariant. -/
theorem scanInv_processRead {cfg : Config} {ext : Ext} {lib : SampleLib}
    {valid : Nat → Bool} {st : ScanSt} {r : ReadRec}
    (hinv : scanInv cfg lib st) :
    scanInv cfg lib (processRead cfg ext lib valid st r) := by
  unfold processRead
  split
  · exact hinv
  split
  · exact hinv
  · rename_i h2
    push_neg at h2
    dsimp only
    split
    · exact scanInv_peBranch h2.1 hinv
    · exact hinv

/-- The scanner's read loop preserves the scanner invariant. -/
theorem scanInv_scanSample (cfg : Config) (ext : Ext) (lib : SampleLib)
    (valid : Nat → Bool) (st : ScanSt) (reads : List ReadRec)
    (hinv : scanInv cfg lib st) :
    scanInv cfg lib (scanSample cfg ext lib valid st reads) := by
  induction reads generalizing st with
  | nil => exact hinv
  | cons a t ih => exact ih _ (scanInv_processRead hinv)

/-- The scanner invariant holds of the initial scanner state. -/
theorem scanInv_init (cfg : Config) (lib : SampleLib) : scanInv cfg lib initScanSt :=
  ⟨fun p hp => absurd hp (List.not_mem_nil p),
   fun p hp => absurd hp (List.not_mem_nil p),
   fun e he => absurd he (List.not_mem_nil e)⟩

/-- With a single-end library (median 0) the paired-end branch drops every
read (src/shortpe.h line 312). -/
theorem peBranch_single_end {cfg : Config} {ext : Ext} {lib : SampleLib}
    {valid : Nat → Bool} {st : ScanSt} {r : ReadRec} (hmed : lib.median = 0) :
    peBranch cfg ext lib valid st r = st := by
  unfold peBranch
  simp [hmed]

/-- With a single-end library, one scanner step equals the junction-only
step. -/
theorem processRead_single_end {cfg : Config} {ext : Ext} {lib : SampleLib}
    {valid : Nat → Bool} {st : ScanSt} {r : ReadRec} (hmed : lib.median = 0) :
    processRead cfg ext lib valid st r = junctionPass cfg st r := by
  unfold processRead junctionPass
  split
  · rfl
  split
  · rfl
  · dsimp only
    split
    · exact peBranch_single_end hmed
    · rfl

/-- With a single-end library the whole scan equals the junction-only fold. -/
theorem scanSample_single_end {cfg : Config} {ext : Ext} {lib : SampleLib}
    {valid : Nat → Bool} (hmed : lib.median = 0) (reads : List ReadRec) (st : ScanSt) :
    scanSample cfg ext lib valid st reads = reads.foldl (junctionPass cfg) st := by
  induction reads generalizing st with
  | nil => rfl
  | cons a t ih =>
    have h1 : scanSample cfg ext lib valid st (a :: t)
        = scanSample cfg ext lib valid (processRead cfg ext lib valid st a) t := rfl
    rw [h1, ih, processRead_single_end hmed]
    rfl

/-- The junction-only step never emits pair evidence. -/
theorem junctionPass_emitted (cfg : Config) (st : ScanSt) (r : ReadRec) :
    (junctionPass cfg st r).emitted = st.emitted := by
  unfold junctionPass
  split
  · rfl
  split
  · rfl
  · rfl

/-- The junction-only fold never emits pair evidence. -/
theorem foldl_junctionPass_emitted (cfg : Config) (reads : List ReadRec) (st : ScanSt) :
    (reads.foldl (junctionPass cfg) st).emitted = st.emitted := by
  induction reads generalizing st with
  | nil => rfl
  | cons a t ih => rw [List.foldl_cons, ih, junctionPass_emitted]

/-- **C2, counterexample.**  With `minRefSep = 5`, a read whose CIGAR holds a
deletion-from-reference of length exactly `minRefSep` produces no junction at
all — not the two junctions the claim asserts (the source guard at
src/shortpe.h lines 288 and 290 is strict: `oplen > minRefSep`). -/
theorem C2_counterexample :
    (cigarWalk cfgFix readDelAtMin).js = [] ∧
    ¬ ((cigarWalk cfgFix readDelAtMin).js.length = 2) := by
  decide

/-- **C2 (amended).**  From any walk state, a deletion-from-reference of
length exactly `minRefSep + 1` emits exactly two junctions: one before the
reference pointer advances with `scleft = false`, one after with
`scleft = true`; a deletion of length `minRefSep` emits no junction. -/
theorem C2_deletion_boundary (c : Config) (r : ReadRec) (st : JState) :
    (cigarStep c r st (CigarOp.cdel, c.minRefSep + 1)).js
      = st.js ++ [mkJunction r st.rp st.sp false,
                  mkJunction r (st.rp + (c.minRefSep + 1)) st.sp true]
    ∧ (cigarStep c r st (CigarOp.cdel, c.minRefSep)).js = st.js := by
  constructor
  · simp [cigarStep, Nat.lt_succ_self]
  · simp [cigarStep]

/-- **C3, counterexample.**  With `minClip = 5`, a read whose CIGAR holds a
soft-clip of length exactly `minClip` produces no junction — not the one
junction the claim asserts (the source guard at src/shortpe.h line 301 is
strict: `oplen > minClip`). -/
theorem C3_counterexample :
    (cigarWalk cfgFix readClipAtMin).js = [] ∧
    ¬ ((cigarWalk cfgFix readClipAtMin).js.length = 1) := by
  decide

/-- **C3 (amended).**  From any walk state, a soft- or hard-clip of length
exactly `minClip + 1` emits exactly one junction — with the recorded sequence
offset advanced past the clip and `scleft = true` when the clip is leading
(sequence pointer still zero), with the unchanged offset and `scleft = false`
otherwise — while a clip of length `minClip` emits no junction. -/
theorem C3_clip_boundary (c : Config) (r : ReadRec) (st : JState) (op : CigarOp)
    (hop : op = CigarOp.csoft ∨ op = CigarOp.chard) :
    (cigarStep c r st (op, c.minClip + 1)).js
      = st.js ++ [mkJunction r st.rp
          (if st.sp = 0 then st.sp + (c.minClip + 1) else st.sp)
          (decide (st.sp = 0))]
    ∧ (cigarStep c r st (op, c.minClip)).js = st.js := by
  rcases hop with h | h <;> subst h <;>
    by_cases hsp : st.sp = 0 <;>
    simp [cigarStep, hsp, Nat.lt_succ_self]

/-- Witness for `C3_clip_boundary` at a concrete input: a leading soft-clip of
length 6 from the initial walk state with `minClip = 5`. -/
theorem C3_clip_boundary_witness :
    (CigarOp.csoft = CigarOp.csoft ∨ CigarOp.csoft = CigarOp.chard) ∧
    ((cigarStep cfgFix readFix { rp := 100, sp := 0, js := [] } (CigarOp.csoft, cfgFix.minClip + 1)).js
      = [] ++ [mkJunction readFix 100
          (if (0 : Nat) = 0 then 0 + (cfgFix.minClip + 1) else 0)
          (decide ((0 : Nat) = 0))]
    ∧ (cigarStep cfgFix readFix { rp := 100, sp := 0, js := [] } (CigarOp.csoft, cfgFix.minClip)).js = []) :=
  ⟨Or.inl rfl, C3_clip_boundary cfgFix readFix { rp := 100, sp := 0, js := [] }
    CigarOp.csoft (Or.inl rfl)⟩

/-- **C4, counterexample.**  With `minMapQual = 10`, a pair whose first mate
has mapping quality exactly 10 passes the filter (`qual < minMapQual` is
strict, src/shortpe.h line 270) and is emitted: the claim that both mates'
qualities *exceeded* `minMapQual` is false. -/
theorem C4_counterexample :
    ¬ (∀ e ∈ (scanSample cfgFix extPair libFix (fun _ => true) initScanSt
          [readMate1, readMate2]).emitted,
        cfgFix.minMapQual < e.mateQual ∧ cfgFix.minMapQual < e.readQual) := by
  decide

/-- **C4 (amended).**  Every pair evidence record emitted by the scanner has
pair quality equal to the minimum of the two constituent mates' mapping
qualities, and both mates' mapping qualities are at least `minMapQual`. -/
theorem C4_pair_quality (cfg : Config) (ext : Ext) (lib : SampleLib)
    (valid : Nat → Bool) (reads : List ReadRec) :
    ∀ e ∈ (scanSample cfg ext lib valid initScanSt reads).emitted,
      e.bamRec.pairQuality = min e.mateQual e.readQual ∧
      cfg.minMapQual ≤ e.mateQual ∧ cfg.minMapQual ≤ e.readQual := by
  intro e he
  exact ((scanInv_scanSample cfg ext lib valid initScanSt reads
    (scanInv_init cfg lib)).2.2 e he).1

/-- Witness for `C4_pair_quality`: the concrete pair `[readMate1, readMate2]`
emits `emissionFix`, whose pair quality is min 10 60 = 10 with both qualities
at least `minMapQual` = 10. -/
theorem C4_pair_quality_witness :
    (emissionFix ∈ (scanSample cfgFix extPair libFix (fun _ => true) initScanSt
        [readMate1, readMate2]).emitted) ∧
    (emissionFix.bamRec.pairQuality = min emissionFix.mateQual emissionFix.readQual ∧
     cfgFix.minMapQual ≤ emissionFix.mateQual ∧ cfgFix.minMapQual ≤ emissionFix.readQual) :=
  ⟨by decide, C4_pair_quality cfgFix extPair libFix (fun _ => true)
    [readMate1, readMate2] emissionFix (by decide)⟩

/-- **C8, counterexample.**  A deletion-classified pair whose absolute insert
size equals `maxISizeCutoff` (500) does *not* exceed the cutoff, yet it is
kept and emitted (the rejection at src/shortpe.h line 326 is
`maxISizeCutoff > |isize|`, so equality passes). -/
theorem C8_counterexample :
    ((scanSample cfgFix extPair libFix (fun _ => true) initScanSt
        [readEq1, readEq2]).emitted.length = 1) ∧
    ¬ (libFix.maxISizeCutoff < |readEq1.isize|) := by
  decide

/-- **C8 (amended).**  A read classified as a deletion candidate (svt = 2) is
rejected by the paired-end branch whenever its absolute insert size is
strictly below the sample's `maxISizeCutoff`, and every emitted deletion
evidence has absolute insert size at least `maxISizeCutoff`. -/
theorem C8_deletion_isize (cfg : Config) (ext : Ext) (lib : SampleLib)
    (valid : Nat → Bool) :
    (∀ (st : ScanSt) (r : ReadRec),
      ext.isizeMappingPos r (max lib.maxISizeCutoff lib.rs) = 2 →
      lib.maxISizeCutoff > |r.isize| →
      peBranch cfg ext lib valid st r = st) ∧
    (∀ (reads : List ReadRec),
      ∀ e ∈ (scanSample cfg ext lib valid initScanSt reads).emitted,
        e.svt = 2 → lib.maxISizeCutoff ≤ |e.bamRec.isize|) := by
  constructor
  · intro st r hsvt hlt
    unfold peBranch
    dsimp only
    split
    · rfl
    split
    · rfl
    split
    · rfl
    split
    · rfl
    split
    · rfl
    split
    · rfl
    split
    · rfl
    split
    · rfl
    · rename_i hcon
      exact absurd ⟨hsvt, hlt⟩ hcon
  · intro reads e he
    exact ((scanInv_scanSample cfg ext lib valid initScanSt reads
      (scanInv_init cfg lib)).2.2 e he).2

/-- Witness for `C8_deletion_isize`: `readSmallIsize` is classified as a
deletion with |isize| = 100 < 500 = `maxISizeCutoff` and the paired-end
branch leaves the scanner state unchanged. -/
theorem C8_deletion_isize_witness :
    (extPair.isizeMappingPos readSmallIsize (max libFix.maxISizeCutoff libFix.rs) = 2) ∧
    (libFix.maxISizeCutoff > |readSmallIsize.isize|) ∧
    (peBranch cfgFix extPair libFix (fun _ => true) initScanSt readSmallIsize = initScanSt) :=
  ⟨rfl, by decide,
   (C8_deletion_isize cfgFix extPair libFix (fun _ => true)).1 initScanSt readSmallIsize
     rfl (by decide)⟩

/-- **C9.**  For a sample whose library median insert size is 0 (single-end
library), the whole scan equals the junction-only fold — junction extraction
still runs on every read — and no paired-end evidence is emitted. -/
theorem C9_single_end_library (cfg : Config) (ext : Ext) (lib : SampleLib)
    (valid : Nat → Bool) (st : ScanSt) (reads : List ReadRec)
    (hmed : lib.median = 0) :
    scanSample cfg ext lib valid st reads = reads.foldl (junctionPass cfg) st ∧
    (scanSample cfg ext lib valid st reads).emitted = st.emitted := by
  refine ⟨scanSample_single_end hmed reads st, ?_⟩
  rw [scanSample_single_end hmed reads st]
  exact foldl_junctionPass_emitted cfg reads st

/-- Witness for `C9_single_end_library` with the single-end library `libSE`
and the concrete pair `[readMate1, readMate2]`. -/
theorem C9_single_end_library_witness :
    (libSE.median = 0) ∧
    (scanSample cfgFix extPair libSE (fun _ => true) initScanSt [readMate1, readMate2]
        = [readMate1, readMate2].foldl (junctionPass cfgFix) initScanSt ∧
     (scanSample cfgFix extPair libSE (fun _ => true) initScanSt
        [readMate1, readMate2]).emitted = initScanSt.emitted) :=
  ⟨rfl, C9_single_end_library cfgFix extPair libSE (fun _ => true) initScanSt
    [readMate1, readMate2] rfl⟩

/-- `getD` after `set` at the same index: the new value when the index is in
range, the default otherwise. -/
theorem getD_set_eq {α : Type} (l : List α) (n : Nat) (a d : α) :
    (l.set n a).getD n d = if n < l.length then a else d := by
  induction l generalizing n with
  | nil => simp
  | cons h t ih =>
    cases n with
    | zero => simp
    | succ m => simpa using ih m

/-- `getD` after `set` at a different index is unchanged. -/
theorem getD_set_ne {α : Type} (l : List α) {n i : Nat} (hne : n ≠ i) (a d : α) :
    (l.set n a).getD i d = l.getD i d := by
  induction l generalizing n i with
  | nil => simp
  | cons h t ih =>
    cases n with
    | zero =>
      cases i with
      | zero => exact absurd rfl hne
      | succ j => simp
    | succ m =>
      cases i with
      | zero => simp
      | succ j => simpa using ih (fun hh => hne (by rw [hh]))

/-- One assembler gather step preserves the per-SV sequence cap. -/
theorem gatherRead_cap {cfg : Config} {ext : Ext} {srStoreR : Nat × Nat → Option Int}
    {hits : Nat → Bool} {refIndex : Int} {st : AsmSt} {r : ReadRec}
    (hcap : ∀ i, ((st.seqStore.getD i []).length ≤ maxReadPerSV)) :
    ∀ i, (((gatherRead cfg ext srStoreR hits refIndex st r).seqStore.getD i []).length
      ≤ maxReadPerSV) := by
  intro i
  unfold gatherRead
  split
  · exact hcap i
  split
  · exact hcap i
  split
  · exact hcap i
  · split
    · exact hcap i
    · rename_i svid heq
      dsimp only
      split
      · split
        · rename_i hguard
          by_cases hi : svid.toNat = i
          · subst hi
            rw [getD_set_eq]
            split
            · simpa using Nat.succ_le_of_lt hguard.2
            · exact Nat.zero_le _
          · rw [getD_set_ne _ hi]
            exact hcap i
        · exact hcap i
      · exact hcap i

/-- **C5.**  From any assembler state whose per-SV sequence stores all hold at
most `maxReadPerSV` (= 20) sequences, any run of gather steps keeps every
per-SV sequence store at or below 20 sequences: `assembleSplitReads` appends
only while the store holds fewer than 20 and the SV is not done. -/
theorem C5_max_read_per_sv (cfg : Config) (ext : Ext) (srStoreR : Nat × Nat → Option Int)
    (hits : Nat → Bool) (refIndex : Int) (reads : List ReadRec) (st : AsmSt)
    (hcap : ∀ i, ((st.seqStore.getD i []).length ≤ maxReadPerSV)) :
    ∀ i, (((reads.foldl (gatherRead cfg ext srStoreR hits refIndex) st).seqStore.getD i []).length
      ≤ maxReadPerSV) := by
  induction reads generalizing st with
  | nil => exact hcap
  | cons a t ih => exact ih _ (gatherRead_cap hcap)

/-- The initial assembler state has empty per-SV sequence stores at every
index (in or out of range). -/
theorem initAsmSt_seqStore_getD (svs : List SVRecord) (i : Nat) :
    ((initAsmSt svs).seqStore.getD i []) = [] := by
  show ((List.replicate svs.length ([] : List (List Char))).getD i []) = []
  generalize svs.length = n
  induction n generalizing i with
  | zero => cases i <;> simp
  | succ m ih =>
    cases i with
    | zero => simp
    | succ j => simp [ih j]

/-- Witness for `C5_max_read_per_sv`: from the initial state over `[svC6]`,
gathering the concrete read `readFix` (which `srStoreFixR` maps to svid 0)
keeps every store within the cap. -/
theorem C5_max_read_per_sv_witness :
    (∀ i, (((initAsmSt [svC6]).seqStore.getD i []).length ≤ maxReadPerSV)) ∧
    (∀ i, ((([readFix].foldl (gatherRead cfgFix extPair srStoreFixR (fun _ => true) 0)
        (initAsmSt [svC6])).seqStore.getD i []).length ≤ maxReadPerSV)) :=
  ⟨fun i => by rw [initAsmSt_seqStore_getD]; exact Nat.zero_le _,
   C5_max_read_per_sv cfgFix extPair srStoreFixR (fun _ => true) 0 [readFix]
     (initAsmSt [svC6])
     (fun i => by rw [initAsmSt_seqStore_getD]; exact Nat.zero_le _)⟩

/-- **C6.**  When the completion check fires for a non-translocation SV with
at least two gathered sequences and the consensus-to-reference alignment
fails, the SV record is replaced by the original record with consensus
cleared to empty and `srSupport` zeroed — every other field is kept — the
store is cleaned up as in every completion, and the step returns normally
(the sweep continues). -/
theorem C6_align_failure (ext : Ext) (st : AsmSt) (svid : Nat)
    (hc : ¬ (st.svDone.getD svid false) ∧
      ((st.seqStore.getD svid []).length = maxReadPerSV ∨
       (st.seqStore.getD svid []).length = (st.svs.getD svid dummySV).srSupport))
    (hm : ¬ translocSvt (st.svs.getD svid dummySV).svt ∧
      (st.seqStore.getD svid []).length > 1)
    (hfail : ext.alignFn { st.svs.getD svid dummySV with
      consensus := ext.msaFn (st.seqStore.getD svid []) } = none) :
    completeSV ext st svid =
      ({ svs := st.svs.set svid
            { st.svs.getD svid dummySV with consensus := [], srSupport := 0 },
         seqStore := st.seqStore.set svid [],
         svDone := st.svDone.set svid true }, true) := by
  unfold completeSV
  dsimp only
  rw [if_pos hc, if_pos hm, hfail]

/-- Witness for `C6_align_failure`: the concrete state `stC6` (SV `svC6`,
two gathered sequences) with the always-failing aligner of `extPair`. -/
theorem C6_align_failure_witness :
    ((¬ (stC6.svDone.getD 0 false) ∧
      ((stC6.seqStore.getD 0 []).length = maxReadPerSV ∨
       (stC6.seqStore.getD 0 []).length = (stC6.svs.getD 0 dummySV).srSupport)) ∧
     (¬ translocSvt (stC6.svs.getD 0 dummySV).svt ∧
      (stC6.seqStore.getD 0 []).length > 1) ∧
     (extPair.alignFn { stC6.svs.getD 0 dummySV with
        consensus := extPair.msaFn (stC6.seqStore.getD 0 []) } = none)) ∧
    completeSV extPair stC6 0 =
      ({ svs := stC6.svs.set 0
            { stC6.svs.getD 0 dummySV with consensus := [], srSupport := 0 },
         seqStore := stC6.seqStore.set 0 [],
         svDone := stC6.svDone.set 0 true }, true) :=
  ⟨⟨by decide, by decide, rfl⟩,
   C6_align_failure extPair stC6 0 (by decide) (by decide) rfl⟩

/-- **C7.**  The MSA primitive and the consensus aligner are invoked for an
SV exactly when it is not yet done, its gathered count reached `maxReadPerSV`
or its SR support, it is not a translocation, and at least two sequences were
gathered; for a translocation SV the consensus work is skipped and the SV
vector — hence every cluster-level breakpoint — is unchanged. -/
theorem C7_msa_invocation (ext : Ext) (st : AsmSt) (svid : Nat) :
    ((completeSV ext st svid).2 = true ↔
      (¬ (st.svDone.getD svid false) ∧
       ((st.seqStore.getD svid []).length = maxReadPerSV ∨
        (st.seqStore.getD svid []).length = (st.svs.getD svid dummySV).srSupport) ∧
       ¬ translocSvt (st.svs.getD svid dummySV).svt ∧
       2 ≤ (st.seqStore.getD svid []).length))
    ∧ (translocSvt (st.svs.getD svid dummySV).svt →
        (completeSV ext st svid).2 = false ∧
        (completeSV ext st svid).1.svs = st.svs) := by
  unfold completeSV
  dsimp only
  by_cases h1 : ¬ (st.svDone.getD svid false) ∧
      ((st.seqStore.getD svid []).length = maxReadPerSV ∨
       (st.seqStore.getD svid []).length = (st.svs.getD svid dummySV).srSupport)
  · rw [if_pos h1]
    by_cases h2 : ¬ translocSvt (st.svs.getD svid dummySV).svt ∧
        (st.seqStore.getD svid []).length > 1
    · rw [if_pos h2]
      cases hal : ext.alignFn { st.svs.getD svid dummySV with
          consensus := ext.msaFn (st.seqStore.getD svid []) } with
      | none =>
        refine ⟨?_, ?_⟩
        · constructor
          · intro _
            exact ⟨h1.1, h1.2, h2.1, h2.2⟩
          · intro _
            trivial
        · intro htr
          exact absurd htr h2.1
      | some refined =>
        refine ⟨?_, ?_⟩
        · constructor
          · intro _
            exact ⟨h1.1, h1.2, h2.1, h2.2⟩
          · intro _
            trivial
        · intro htr
          exact absurd htr h2.1
    · rw [if_neg h2]
      refine ⟨?_, ?_⟩
      · constructor
        · intro hfalse
          exact absurd hfalse (by simp)
        · intro hrhs
          exact absurd ⟨hrhs.2.2.1, hrhs.2.2.2⟩ h2
      · intro htr
        exact ⟨rfl, rfl⟩
  · rw [if_neg h1]
    refine ⟨?_, ?_⟩
    · constructor
      · intro hfalse
        exact absurd hfalse (by simp)
      · intro hrhs
        exact absurd ⟨hrhs.1, hrhs.2.1⟩ h1
    · intro htr
      exact ⟨rfl, rfl⟩

/-- Witness for `C7_msa_invocation`: for the translocation state `stT` the
completion step skips consensus work and leaves the SV vector unchanged. -/
theorem C7_msa_invocation_witness :
    (translocSvt (stT.svs.getD 0 dummySV).svt = true) ∧
    ((completeSV extPair stT 0).2 = false ∧
     (completeSV extPair stT 0).1.svs = stT.svs) :=
  ⟨by decide, (C7_msa_invocation extPair stT 0).2 (by decide)⟩

/-- Any binding found in the store after one tracking step is either an old
binding or one of the two endpoint insertions of an assigned record. -/
theorem trackStep_origin {st : SRStore} {r : SRBamRecord} {chr : Nat} {k : Nat × Nat} {v : Int}
    (h : trackStep st r chr k = some v) :
    st chr k = some v ∨
    (r.svid ≠ -1 ∧ v = r.svid ∧
      ((chr, k.1, k.2) = endpointKey1 r ∨ (chr, k.1, k.2) = endpointKey2 r)) := by
  by_cases hsv : r.svid ≠ -1
  · unfold trackStep at h
    rw [if_pos hsv] at h
    unfold srStoreSet at h
    by_cases hc2 : chr = r.chr2 ∧ k = (r.pos2, r.id)
    · rw [if_pos hc2] at h
      injection h with hv
      obtain ⟨hca, hcb⟩ := hc2
      subst hca
      subst hcb
      subst hv
      exact Or.inr ⟨hsv, rfl, Or.inr rfl⟩
    · rw [if_neg hc2] at h
      by_cases hc1 : chr = r.chr ∧ k = (r.pos, r.id)
      · rw [if_pos hc1] at h
        injection h with hv
        obtain ⟨hca, hcb⟩ := hc1
        subst hca
        subst hcb
        subst hv
        exact Or.inr ⟨hsv, rfl, Or.inl rfl⟩
      · rw [if_neg hc1] at h
        exact Or.inl h
  · unfold trackStep at h
    rw [if_neg hsv] at h
    exact Or.inl h

/-- Any binding found in the store after the tracking loop is either an old
binding or an endpoint insertion of an assigned record of the list. -/
theorem track_origin {l : List SRBamRecord} {st : SRStore} {chr : Nat} {k : Nat × Nat} {v : Int}
    (h : trackSplitReads l st chr k = some v) :
    st chr k = some v ∨
    ∃ r, r ∈ l ∧ r.svid ≠ -1 ∧ v = r.svid ∧
      ((chr, k.1, k.2) = endpointKey1 r ∨ (chr, k.1, k.2) = endpointKey2 r) := by
  induction l generalizing st with
  | nil => exact Or.inl h
  | cons a t ih =>
    have h1 : trackSplitReads t (trackStep st a) chr k = some v := h
    rcases ih h1 with h2 | h2
    · rcases trackStep_origin h2 with h3 | h3
      · exact Or.inl h3
      · exact Or.inr ⟨a, List.mem_cons_self a t, h3⟩
    · obtain ⟨r, hr, hrest⟩ := h2
      exact Or.inr ⟨r, List.mem_cons_of_mem _ hr, hrest⟩

/-- A binding already in the store survives the tracking loop provided every
assigned record of the list that writes its key writes the same svid. -/
theorem track_pres {l : List SRBamRecord} {st : SRStore} {chr : Nat} {k : Nat × Nat} {v : Int}
    (hst : st chr k = some v)
    (hall : ∀ r ∈ l, r.svid ≠ -1 →
      ((chr, k.1, k.2) = endpointKey1 r ∨ (chr, k.1, k.2) = endpointKey2 r) → r.svid = v) :
    trackSplitReads l st chr k = some v := by
  induction l generalizing st with
  | nil => exact hst
  | cons a t ih =>
    refine ih ?_ (fun r hr => hall r (List.mem_cons_of_mem _ hr))
    by_cases hsv : a.svid ≠ -1
    · unfold trackStep
      rw [if_pos hsv]
      unfold srStoreSet
      by_cases hc2 : chr = a.chr2 ∧ k = (a.pos2, a.id)
      · rw [if_pos hc2]
        obtain ⟨hca, hcb⟩ := hc2
        have heq := hall a (List.mem_cons_self a t) hsv
          (Or.inr (by subst hca; subst hcb; rfl))
        rw [heq]
      · rw [if_neg hc2]
        by_cases hc1 : chr = a.chr ∧ k = (a.pos, a.id)
        · rw [if_pos hc1]
          obtain ⟨hca, hcb⟩ := hc1
          have heq := hall a (List.mem_cons_self a t) hsv
            (Or.inl (by subst hca; subst hcb; rfl))
          rw [heq]
        · rw [if_neg hc1]
          exact hst
    · unfold trackStep
      rw [if_neg hsv]
      exact hst

/-- After one tracking step on an assigned record, both of its endpoint keys
map to its svid. -/
theorem trackStep_self {st : SRStore} {r : SRBamRecord} (hsv : r.svid ≠ -1) :
    trackStep st r r.chr (r.pos, r.id) = some r.svid ∧
    trackStep st r r.chr2 (r.pos2, r.id) = some r.svid := by
  constructor
  · unfold trackStep
    rw [if_pos hsv]
    unfold srStoreSet
    by_cases hc2 : r.chr = r.chr2 ∧ ((r.pos, r.id) : Nat × Nat) = (r.pos2, r.id)
    · rw [if_pos hc2]
    · rw [if_neg hc2, if_pos ⟨rfl, rfl⟩]
  · unfold trackStep
    rw [if_pos hsv]
    unfold srStoreSet
    rw [if_pos ⟨rfl, rfl⟩]

/-- For every assigned record of the tracked list, both endpoint keys map to
its svid at the end of the loop, provided any two assigned records sharing an
endpoint key carry the same svid. -/
theorem track_insert {l : List SRBamRecord} {st : SRStore} {r : SRBamRecord}
    (hr : r ∈ l) (hsv : r.svid ≠ -1)
    (hcons : ∀ a ∈ l, ∀ b ∈ l, a.svid ≠ -1 → b.svid ≠ -1 →
      sharesEndpoint a b → a.svid = b.svid) :
    trackSplitReads l st r.chr (r.pos, r.id) = some r.svid ∧
    trackSplitReads l st r.chr2 (r.pos2, r.id) = some r.svid := by
  induction l generalizing st with
  | nil => cases hr
  | cons a t ih =>
    rcases List.mem_cons.mp hr with rfl | hmem
    · constructor
      · show trackSplitReads t (trackStep st r) r.chr (r.pos, r.id) = some r.svid
        refine track_pres (trackStep_self hsv).1 ?_
        intro b hb hbsv hkey
        refine hcons b (List.mem_cons_of_mem _ hb) r (List.mem_cons_self r t) hbsv hsv ?_
        rcases hkey with h | h
        · exact Or.inl h.symm
        · exact Or.inr (Or.inr (Or.inl h.symm))
      · show trackSplitReads t (trackStep st r) r.chr2 (r.pos2, r.id) = some r.svid
        refine track_pres (trackStep_self hsv).2 ?_
        intro b hb hbsv hkey
        refine hcons b (List.mem_cons_of_mem _ hb) r (List.mem_cons_self r t) hbsv hsv ?_
        rcases hkey with h | h
        · exact Or.inr (Or.inl h.symm)
        · exact Or.inr (Or.inr (Or.inr h.symm))
    · exact ih hmem
        (fun x hx y hy => hcons x (List.mem_cons_of_mem _ hx) y (List.mem_cons_of_mem _ hy))

/-- **C1.**  After the tracking loop of `scanPEandSR`, provided any two
assigned SR records sharing an endpoint key carry the same svid, every record
with an assigned svid has both endpoint keys — (chr, (pos, id)) and
(chr2, (pos2, id)) — in `srStore`, both mapping to its svid, and every
binding of `srStore` stems from an endpoint of a record with an assigned
svid: records with `svid = −1` are never inserted. -/
theorem C1_srstore_endpoints (recs : List SRBamRecord)
    (hcons : ∀ a ∈ recs, ∀ b ∈ recs, a.svid ≠ -1 → b.svid ≠ -1 →
      sharesEndpoint a b → a.svid = b.svid) :
    (∀ r ∈ recs, r.svid ≠ -1 →
      trackSplitReads recs emptyStore r.chr (r.pos, r.id) = some r.svid ∧
      trackSplitReads recs emptyStore r.chr2 (r.pos2, r.id) = some r.svid) ∧
    (∀ (chr : Nat) (k : Nat × Nat) (v : Int),
      trackSplitReads recs emptyStore chr k = some v →
      ∃ r, r ∈ recs ∧ r.svid ≠ -1 ∧ v = r.svid ∧
        ((chr, k.1, k.2) = endpointKey1 r ∨ (chr, k.1, k.2) = endpointKey2 r)) := by
  constructor
  · intro r hr hsv
    exact track_insert hr hsv hcons
  · intro chr k v h
    rcases track_origin h with h1 | h1
    · exact absurd h1 (by simp [emptyStore])
    · exact h1

/-- Witness for `C1_srstore_endpoints`: the two concrete records `recA`
(svid 3) and `recB` (svid −1) satisfy the consistency hypothesis, so the
conclusion holds of their tracking run. -/
theorem C1_srstore_endpoints_witness :
    (∀ a ∈ [recA, recB], ∀ b ∈ [recA, recB], a.svid ≠ -1 → b.svid ≠ -1 →
      sharesEndpoint a b → a.svid = b.svid) ∧
    ((∀ r ∈ [recA, recB], r.svid ≠ -1 →
      trackSplitReads [recA, recB] emptyStore r.chr (r.pos, r.id) = some r.svid ∧
      trackSplitReads [recA, recB] emptyStore r.chr2 (r.pos2, r.id) = some r.svid) ∧
    (∀ (chr : Nat) (k : Nat × Nat) (v : Int),
      trackSplitReads [recA, recB] emptyStore chr k = some v →
      ∃ r, r ∈ [recA, recB] ∧ r.svid ≠ -1 ∧ v = r.svid ∧
        ((chr, k.1, k.2) = endpointKey1 r ∨ (chr, k.1, k.2) = endpointKey2 r))) :=
  ⟨by decide, C1_srstore_endpoints [recA, recB] (by decide)⟩

/-- `getD` on an append, index within the left list. -/
theorem getD_append_lt {α : Type} (l l2 : List α) (d : α) (i : Nat) (h : i < l.length) :
    ((l ++ l2).getD i d) = l.getD i d := by
  induction l generalizing i with
  | nil => cases h
  | cons a t ih =>
    cases i with
    | zero => rfl
    | succ j =>
      rw [List.cons_append, List.getD_cons_succ, List.getD_cons_succ]
      exact ih j (Nat.lt_of_succ_lt_succ h)

/-- `getD` of a one-element append at the length of the left list. -/
theorem getD_append_length {α : Type} (l : List α) (a d : α) :
    ((l ++ [a]).getD l.length d) = a := by
  induction l with
  | nil => rfl
  | cons b t ih =>
    rw [List.cons_append, List.length_cons, List.getD_cons_succ]
    exact ih

/-- One component step of the spec-modelled clusterer preserves the id-equals-
index invariant of the SV vector and the svid-validity invariant of the
processed records, for components of unassigned records. -/
theorem clusterComp_inv (accept : List SRBamRecord → Bool) (svt : Int)
    (acc : List SRBamRecord × List SVRecord) (c : List SRBamRecord)
    (hsvs : svsIdOk acc.2)
    (hrec : ∀ r ∈ acc.1, recOk acc.2 r)
    (hinit : ∀ r ∈ c, r.svid = -1) :
    svsIdOk (clusterComp accept svt acc c).2 ∧
    (∀ r ∈ (clusterComp accept svt acc c).1, recOk (clusterComp accept svt acc c).2 r) := by
  match c with
  | [] => exact ⟨hsvs, hrec⟩
  | c0 :: rest =>
    unfold clusterComp
    dsimp only
    by_cases hacc : accept (c0 :: rest)
    · rw [if_pos hacc]
      dsimp only
      constructor
      · intro i hi
        rw [List.length_append, List.length_singleton] at hi
        rcases Nat.lt_succ_iff_lt_or_eq.mp hi with hlt | heq
        · rw [getD_append_lt _ _ _ _ hlt]
          exact hsvs i hlt
        · subst heq
          rw [getD_append_length]
      · intro r hr
        rcases List.mem_append.mp hr with hold | hnew
        · rcases hrec r hold with h1 | h1
          · exact Or.inl h1
          · refine Or.inr ⟨h1.1, ?_, ?_⟩
            · rw [List.length_append, List.length_singleton]
              exact Nat.lt_succ_of_lt h1.2.1
            · rw [getD_append_lt _ _ _ _ h1.2.1]
              exact h1.2.2
        · obtain ⟨r0, _, hr0e⟩ := List.mem_map.mp hnew
          subst hr0e
          refine Or.inr ⟨Int.natCast_nonneg _, ?_, ?_⟩
          · rw [Int.toNat_natCast, List.length_append, List.length_singleton]
            exact Nat.lt_succ_self _
          · rw [Int.toNat_natCast, getD_append_length]
    · rw [if_neg hacc]
      dsimp only
      refine ⟨hsvs, ?_⟩
      intro r hr
      rcases List.mem_append.mp hr with hold | hnew
      · exact hrec r hold
      · exact Or.inl (hinit r hnew)

/-- The spec-modelled clusterer fold preserves both invariants. -/
theorem cluster_fold_inv (accept : List SRBamRecord → Bool) (svt : Int)
    (comps : List (List SRBamRecord)) (acc : List SRBamRecord × List SVRecord)
    (hsvs : svsIdOk acc.2)
    (hrec : ∀ r ∈ acc.1, recOk acc.2 r)
    (hinit : ∀ c ∈ comps, ∀ r ∈ c, r.svid = -1) :
    svsIdOk (comps.foldl (clusterComp accept svt) acc).2 ∧
    (∀ r ∈ (comps.foldl (clusterComp accept svt) acc).1,
      recOk (comps.foldl (clusterComp accept svt) acc).2 r) := by
  induction comps generalizing acc with
  | nil => exact ⟨hsvs, hrec⟩
  | cons c cs ih =>
    have hstep := clusterComp_inv accept svt acc c hsvs hrec
      (hinit c (List.mem_cons_self c cs))
    exact ih _ hstep.1 hstep.2 (fun c2 hc2 => hinit c2 (List.mem_cons_of_mem _ hc2))

/-- **C10.**  With the clusterer modelled from the spec (appended SVs carry
their vector position as id, assigned back into member svids), every svid
found in the SR back-index built from the clustered records is a valid index
into the SV vector and the indexed record's id equals the svid; the SV vector
keeps id = index throughout; and the assembler's gather step leaves its state
unchanged whenever the `svid == svs[svid].id` guard fails, silently dropping
the read. -/
theorem C10_svid_valid (accept : List SRBamRecord → Bool) (svt : Int)
    (comps : List (List SRBamRecord)) (svs0 : List SVRecord)
    (hsvs : ∀ i, i < svs0.length → (svs0.getD i dummySV).id = i)
    (hinit : ∀ c ∈ comps, ∀ r ∈ c, r.svid = -1) :
    (∀ (chr : Nat) (k : Nat × Nat) (v : Int),
      trackSplitReads (cluster accept svt comps svs0).1 emptyStore chr k = some v →
      0 ≤ v ∧ v.toNat < (cluster accept svt comps svs0).2.length ∧
      ((cluster accept svt comps svs0).2.getD v.toNat dummySV).id = v) ∧
    (∀ i, i < (cluster accept svt comps svs0).2.length →
      ((cluster accept svt comps svs0).2.getD i dummySV).id = i) ∧
    (∀ (cfg : Config) (ext : Ext) (srStoreR : Nat × Nat → Option Int) (hits : Nat → Bool)
      (refIndex : Int) (st : AsmSt) (r : ReadRec) (svid : Int),
      srStoreR (r.pos, r.seed) = some svid →
      ¬ (svid = (st.svs.getD svid.toNat dummySV).id) →
      gatherRead cfg ext srStoreR hits refIndex st r = st) := by
  have hfold := cluster_fold_inv accept svt comps ([], svs0) hsvs
    (fun r hr => absurd hr (List.not_mem_nil r)) hinit
  refine ⟨?_, hfold.1, ?_⟩
  · intro chr k v h
    rcases track_origin h with h1 | h1
    · exact absurd h1 (by simp [emptyStore])
    · obtain ⟨r, hr, hsv, hveq, _⟩ := h1
      rcases hfold.2 r hr with h2 | h2
      · exact absurd h2 (hveq ▸ hsv)
      · subst hveq
        exact h2
  · intro cfg ext srStoreR hits refIndex st r svid hlook hguard
    unfold gatherRead
    split
    · rfl
    split
    · rfl
    split
    · rfl
    · rw [hlook]
      dsimp only
      rw [if_neg hguard]

/-- Witness for `C10_svid_valid`: one accepted component of the single
unassigned record `recC` clustered into the empty SV vector. -/
theorem C10_svid_valid_witness :
    (∀ i, i < ([] : List SVRecord).length → (([] : List SVRecord).getD i dummySV).id = i) ∧
    (∀ c ∈ [[recC]], ∀ r ∈ c, r.svid = -1) ∧
    ((∀ (chr : Nat) (k : Nat × Nat) (v : Int),
      trackSplitReads (cluster (fun _ => true) 2 [[recC]] []).1 emptyStore chr k = some v →
      0 ≤ v ∧ v.toNat < (cluster (fun _ => true) 2 [[recC]] []).2.length ∧
      ((cluster (fun _ => true) 2 [[recC]] []).2.getD v.toNat dummySV).id = v) ∧
    (∀ i, i < (cluster (fun _ => true) 2 [[recC]] []).2.length →
      ((cluster (fun _ => true) 2 [[recC]] []).2.getD i dummySV).id = i) ∧
    (∀ (cfg : Config) (ext : Ext) (srStoreR : Nat × Nat → Option Int) (hits : Nat → Bool)
      (refIndex : Int) (st : AsmSt) (r : ReadRec) (svid : Int),
      srStoreR (r.pos, r.seed) = some svid →
      ¬ (svid = (st.svs.getD svid.toNat dummySV).id) →
      gatherRead cfg ext srStoreR hits refIndex st r = st)) :=
  ⟨fun i hi => absurd hi (Nat.not_lt_zero i), by decide,
   C10_svid_valid (fun _ => true) 2 [[recC]] []
     (fun i hi => absurd hi (Nat.not_lt_zero i)) (by decide)⟩

end Torali
